import Mathlib

/-!
# Verification of the cpu-path-tracer core

Shallow embedding of the renderer sources (`matrix.rs`, `rng.rs`,
`renderer.rs`, `image.rs`, `geometry.rs`, `main.rs`).

Modelling conventions:
* `f32` scalars are modelled as `ℚ`.  The transcendental / rounding
  primitives of `f32` (`sin`, `sqrt`, `tan`) are not rational functions,
  so they appear as explicit function parameters (`fsin`, `fsqrt`,
  `ftan`) of the definitions that use them; every theorem quantifies
  over them (or instantiates them with a concrete total function in a
  concrete scenario).  `floor` is exact on `ℚ` and is embedded directly.
* The renderer's object list (`Vec<Box<dyn Hittable>>` in
  `renderer.rs`) is a list of values exposing the trait interface
  `intersect : Ray → min_distance → Option HitData`; the intersection
  routine of each object is an arbitrary function, exactly as the trait
  object makes it for the renderer.  Each object additionally carries
  the `albedo` of its material (from `Object { surface, material }`
  built in `main.rs`); the integrator of `renderer.rs` never reads it.
* The rejection loop of `Rng::unit_sphere` has no iteration bound in
  the source, so it is embedded with explicit fuel; exhausted fuel is
  `Option.none` (the diverging execution), and every function downstream
  propagates the `Option`.
-/

/-- Three-component vector of `f32` (`matrix.rs`: `Vector3f = Matrix<f32, 3, 1>`),
used for positions, directions and colors (`Color` is an alias of
`Vector3f`; the channels `r,g,b` are the components `x,y,z`). -/
structure Vec3 where
  x : ℚ
  y : ℚ
  z : ℚ
deriving DecidableEq, Repr

namespace Vec3

/-- Source `matrix.rs` `Add<Matrix> for Matrix`: componentwise addition. -/
def add (a b : Vec3) : Vec3 := ⟨a.x + b.x, a.y + b.y, a.z + b.z⟩

/-- Source `matrix.rs` `Sub<Matrix> for Matrix`: componentwise subtraction. -/
def sub (a b : Vec3) : Vec3 := ⟨a.x - b.x, a.y - b.y, a.z - b.z⟩

/-- Source `matrix.rs` `Mul<T> for Matrix`: multiply every element by the scalar. -/
def smul (a : Vec3) (s : ℚ) : Vec3 := ⟨a.x * s, a.y * s, a.z * s⟩

/-- Source `matrix.rs` `Div<T> for Matrix`: divide every element by the scalar. -/
def sdiv (a : Vec3) (s : ℚ) : Vec3 := ⟨a.x / s, a.y / s, a.z / s⟩

/-- Source `matrix.rs` `dot`. -/
def dot (a b : Vec3) : ℚ := a.x * b.x + a.y * b.y + a.z * b.z

/-- Source `matrix.rs` `squared_length`. -/
def squared_length (a : Vec3) : ℚ := dot a a

/-- Source `matrix.rs` `squared_distance`: `(*self - *rhs).squared_length()`. -/
def squared_distance (a b : Vec3) : ℚ := squared_length (sub a b)

/-- Source `matrix.rs` `normalized`: `*self / self.length()` where
`length = self.dot(self).sqrt()`; `fsqrt` stands for `f32::sqrt`.
(No zero-length guard in `matrix.rs`; see the `FloatModel` section.) -/
def normalized (fsqrt : ℚ → ℚ) (a : Vec3) : Vec3 := sdiv a (fsqrt (dot a a))

/-- Source `matrix.rs` `cross` (on `Vector<T, 3>`). -/
def cross (a b : Vec3) : Vec3 :=
  ⟨a.y * b.z - a.z * b.y, a.z * b.x - a.x * b.z, a.x * b.y - a.y * b.x⟩

/-- Source `matrix.rs` `clamp`: `self.data[i].max(min).min(max)` per element. -/
def clamp (a : Vec3) (lo hi : ℚ) : Vec3 :=
  ⟨min (max a.x lo) hi, min (max a.y lo) hi, min (max a.z lo) hi⟩

/-- Componentwise sum of a list of vectors. -/
def vsum : List Vec3 → Vec3
  | [] => ⟨0, 0, 0⟩
  | v :: rest => add v (vsum rest)

end Vec3

/-! ## Generic scalar operators of `matrix.rs` (claim C9)

`matrix.rs` implements `Add<T>`, `Sub<T>`, `Mul<T>`, `Div<T>` for
`Matrix<T, R, C>` by iterating over all elements.  A matrix is embedded
as its row list. -/

/-- Source `matrix.rs` `Add<T> for Matrix`: `self.data.iter_mut().flatten().for_each(|x| *x += rhs)`. -/
def matrixAddScalar (m : List (List ℚ)) (s : ℚ) : List (List ℚ) :=
  m.map (fun row => row.map (fun x => x + s))

/-- Source `matrix.rs` `Sub<T> for Matrix` (lines 276–283): the loop body is
`*x += rhs` — it adds the scalar to every element. -/
def matrixSubScalar (m : List (List ℚ)) (s : ℚ) : List (List ℚ) :=
  m.map (fun row => row.map (fun x => x + s))

/-- The mathematically expected elementwise scalar subtraction, for
comparison with `matrixSubScalar`. -/
def matrixTrueSubScalar (m : List (List ℚ)) (s : ℚ) : List (List ℚ) :=
  m.map (fun row => row.map (fun x => x - s))

/-! ## Random sampler (`rng.rs`) -/

/-- Source `rng.rs` `Rng`: the sampler state is a single scalar seed. -/
structure Rng where
  seed : ℚ
deriving DecidableEq, Repr

namespace Rng

/-- Source `Rng::new(seed)`. -/
def new (seed : ℚ) : Rng := ⟨seed⟩

/-- The constant `43758.5453123` of `rng.rs` as an exact rational. -/
def rngMultiplier : ℚ := 437585453123 / 10000000

/-- Source `rng.rs` `uniform`:
`new_seed = seed.sin() * 43758.5453123`; if the update is a fixed point
the state is perturbed by `0.01`; the state becomes `new_seed` and the
returned value is `seed - seed.floor()`.  `fsin` stands for `f32::sin`. -/
def uniform (fsin : ℚ → ℚ) (r : Rng) : ℚ × Rng :=
  let n := fsin r.seed * rngMultiplier
  let n := if n = r.seed then n + 1 / 100 else n
  (n - (Int.floor n : ℚ), ⟨n⟩)

/-- The rejection loop of `rng.rs` `unit_sphere`: while `p.squared_length()
≥ 1.0`, redraw `p = (2u₁-1, 2u₂-1, 2u₃-1)`.  Fuel bounds the number of
iterations; `none` is the execution that never leaves the loop. -/
def unitSphereLoop (fsin : ℚ → ℚ) : ℕ → Rng → Vec3 → Option (Vec3 × Rng)
  | 0, _, _ => none
  | fuel + 1, r, p =>
    if p.squared_length ≥ 1 then
      let (u1, r1) := uniform fsin r
      let (u2, r2) := uniform fsin r1
      let (u3, r3) := uniform fsin r2
      unitSphereLoop fsin fuel r3 ⟨2 * u1 - 1, 2 * u2 - 1, 2 * u3 - 1⟩
    else
      some (p, r)

/-- Source `rng.rs` `unit_sphere`: starts from `p = (1,1,1)` and rejection-samples. -/
def unitSphere (fsin : ℚ → ℚ) (fuel : ℕ) (r : Rng) : Option (Vec3 × Rng) :=
  unitSphereLoop fsin fuel r ⟨1, 1, 1⟩

end Rng

/-! ## Claim C6: sampler determinism -/

/-- One sampler call of the sequence a client may issue (claim C6).
`unitSphereCall` carries the fuel bound of the modelled rejection loop. -/
inductive RngCall where
  | uniformCall : RngCall
  | unitSphereCall (fuel : ℕ) : RngCall
deriving DecidableEq, Repr

/-- One observed output of a sampler call. -/
inductive RngOut where
  | num (q : ℚ) : RngOut
  | vec (v : Vec3) : RngOut
deriving DecidableEq, Repr

/-- Run a sampler through a sequence of `uniform` / `unit_sphere` calls,
recording every output; `none` if some `unit_sphere` call diverges. -/
def runCalls (fsin : ℚ → ℚ) : List RngCall → Rng → Option (List RngOut × Rng)
  | [], r => some ([], r)
  | RngCall.uniformCall :: rest, r =>
    let (q, r') := Rng.uniform fsin r
    (runCalls fsin rest r').map (fun (outs, rf) => (RngOut.num q :: outs, rf))
  | RngCall.unitSphereCall fuel :: rest, r =>
    match Rng.unitSphere fsin fuel r with
    | none => none
    | some (v, r') =>
      (runCalls fsin rest r').map (fun (outs, rf) => (RngOut.vec v :: outs, rf))

/-- C6 — Two samplers constructed with the same seed and subjected to the
same sequence of `uniform()` / `unit_sphere()` calls produce identical
output sequences and end in identical states: `runCalls` depends on a
sampler only through its seed. -/
theorem c6_sampler_deterministic (fsin : ℚ → ℚ) (r₁ r₂ : Rng)
    (h : r₁.seed = r₂.seed) (calls : List RngCall) :
    runCalls fsin calls r₁ = runCalls fsin calls r₂ := by
  cases r₁
  cases r₂
  cases h
  rfl

/-- Witness for C6 at seed `0` and a concrete call sequence. -/
theorem c6_sampler_deterministic_witness :
    (Rng.new 0).seed = (Rng.new 0).seed ∧
      runCalls (fun q => q) [RngCall.uniformCall, RngCall.unitSphereCall 5]
          (Rng.new 0) =
        runCalls (fun q => q) [RngCall.uniformCall, RngCall.unitSphereCall 5]
          (Rng.new 0) :=
  ⟨rfl, c6_sampler_deterministic (fun q => q) (Rng.new 0) (Rng.new 0) rfl
    [RngCall.uniformCall, RngCall.unitSphereCall 5]⟩

/-- C9 — The scalar-subtraction operator `Sub<T> for Matrix` of
`matrix.rs` adds instead of subtracting: `m - s` equals `m + s`
elementwise for every matrix and scalar, and in particular the
expression `v*2 - 1` (the spec's unit-ball sampling form) computes
`2v + 1`, not `2v - 1`: at `v = (0,0,0)` the operator yields `(1,1,1)`
where true subtraction yields `(-1,-1,-1)`. -/
theorem c9_sub_scalar_adds :
    (∀ (m : List (List ℚ)) (s : ℚ), matrixSubScalar m s = matrixAddScalar m s) ∧
      matrixSubScalar [[0, 0, 0]] 1 = [[1, 1, 1]] ∧
      matrixTrueSubScalar [[0, 0, 0]] 1 = [[-1, -1, -1]] ∧
      matrixSubScalar [[0, 0, 0]] 1 ≠ matrixTrueSubScalar [[0, 0, 0]] 1 := by
  refine ⟨fun m s => rfl, ?_, ?_, ?_⟩ <;>
    · simp [matrixSubScalar, matrixAddScalar, matrixTrueSubScalar]
      try norm_num

/-! ## Rays, hits, objects (`geometry.rs` declarations used by `renderer.rs`) -/

/-- Source `Ray { origin, direction }`. -/
structure Ray where
  origin : Vec3
  direction : Vec3
deriving DecidableEq, Repr

/-- Source `HitData { intersection_point, normal }` as consumed by
`renderer.rs::compute_color_for_ray`. -/
structure HitData where
  intersection_point : Vec3
  normal : Vec3
deriving DecidableEq, Repr

/-- One scene object.  `intersect` is the `Hittable` trait interface
`intersect(ray, min_distance) -> Option<HitData>` exactly as the boxed
trait object exposes it to `renderer.rs`; `albedo` is the
`Material::Lambertian { albedo }` of the `Object` built in `main.rs`
(the integrator in `renderer.rs` never reads it). -/
structure Obj where
  intersect : Ray → ℚ → Option HitData
  albedo : Vec3

/-- One step of Rust's `Iterator::min_by` with the comparison of
`renderer.rs::compute_color_for_ray` (squared distance of the
intersection point from the ray origin); on ties the earlier element is
kept, as `min_by` specifies. -/
def minStep (origin : Vec3) (acc : Option HitData) (h : HitData) : Option HitData :=
  match acc with
  | none => some h
  | some a =>
    if origin.squared_distance a.intersection_point >
        origin.squared_distance h.intersection_point then some h else some a

/-- The fold performed by Rust's `Iterator::min_by` over the candidate
hits. -/
def minByDist (origin : Vec3) (hits : List HitData) : Option HitData :=
  hits.foldl (minStep origin) none

/-- Source `renderer.rs`: `objects.iter().filter_map(|o| o.intersect(ray, min_distance))`. -/
def candidateHits (objects : List Obj) (ray : Ray) (minDistance : ℚ) : List HitData :=
  objects.filterMap (fun o => o.intersect ray minDistance)

/-- The nearest-hit query of `renderer.rs::compute_color_for_ray`:
linear scan (`filter_map`) followed by `min_by` on squared distance. -/
def nearestHit (objects : List Obj) (ray : Ray) (minDistance : ℚ) : Option HitData :=
  minByDist ray.origin (candidateHits objects ray minDistance)

/-- Source `MIN_DISTANCE` constant of `renderer.rs` (`1e-3`). -/
def minDist : ℚ := 1 / 1000

/-- Source `renderer.rs::compute_color_for_ray`, by recursion on `max_depth`:
depth `0` returns black; otherwise the nearest hit (if any) scatters a
new ray from the hit point towards `hit.point + hit.normal +
rng.unit_sphere()` and the recursive result is multiplied by `0.5`;
a miss returns the ambient light color.  `fuel` bounds the rejection
loop of `unit_sphere`; its exhaustion is the diverging execution
(`none`). -/
def ccfr (fsin fsqrt : ℚ → ℚ) (objects : List Obj) (ambient : Vec3)
    (fuel : ℕ) : ℕ → Ray → Rng → Option (Vec3 × Rng)
  | 0, _, r => some (⟨0, 0, 0⟩, r)
  | maxDepth + 1, ray, r =>
    match nearestHit objects ray minDist with
    | some hit =>
      match Rng.unitSphere fsin fuel r with
      | none => none
      | some (usp, r1) =>
        let target := (hit.intersection_point.add hit.normal).add usp
        let ray' : Ray :=
          ⟨hit.intersection_point,
            Vec3.normalized fsqrt (target.sub hit.intersection_point)⟩
        (ccfr fsin fsqrt objects ambient fuel maxDepth ray' r1).map
          (fun cr => (cr.1.smul (1 / 2), cr.2))
    | none => some (ambient, r)

/-! ## Claim C4: depth-0 termination -/

/-- C4 — Called with depth `0`, the integrator returns black for every
scene, every ray and every sampler state, leaving the sampler state
untouched (no random draw) and not depending on the object list (no
scene query): the result is `some (black, r)` uniformly. -/
theorem c4_depth_zero_black (fsin fsqrt : ℚ → ℚ) (objects : List Obj)
    (ambient : Vec3) (fuel : ℕ) (ray : Ray) (r : Rng) :
    ccfr fsin fsqrt objects ambient fuel 0 ray r = some (⟨0, 0, 0⟩, r) :=
  rfl

/-! ## Claim C7: nearest-hit query -/

/-- Invariant of the `min_by` fold: starting from accumulator `some a`,
the result is an element of `a :: l` whose squared distance is minimal
among `a :: l`. -/
theorem foldl_minStep_some (origin : Vec3) (l : List HitData) :
    ∀ a : HitData,
      ∃ r, l.foldl (minStep origin) (some a) = some r ∧ (r = a ∨ r ∈ l) ∧
        origin.squared_distance r.intersection_point ≤
          origin.squared_distance a.intersection_point ∧
        ∀ h' ∈ l, origin.squared_distance r.intersection_point ≤
          origin.squared_distance h'.intersection_point := by
  induction l with
  | nil =>
    intro a
    exact ⟨a, rfl, Or.inl rfl, le_refl _, by simp⟩
  | cons h t ih =>
    intro a
    by_cases hc : origin.squared_distance a.intersection_point >
        origin.squared_distance h.intersection_point
    · obtain ⟨r, hr, hmem, hle, hall⟩ := ih h
      refine ⟨r, ?_, ?_, ?_, ?_⟩
      · simpa [minStep, hc] using hr
      · rcases hmem with rfl | hm
        · exact Or.inr (List.mem_cons_self _ _)
        · exact Or.inr (List.mem_cons_of_mem _ hm)
      · exact hle.trans (le_of_lt hc)
      · intro h' hh'
        rcases List.mem_cons.mp hh' with rfl | hm
        · exact hle
        · exact hall h' hm
    · obtain ⟨r, hr, hmem, hle, hall⟩ := ih a
      refine ⟨r, ?_, ?_, hle, ?_⟩
      · simpa [minStep, hc] using hr
      · rcases hmem with rfl | hm
        · exact Or.inl rfl
        · exact Or.inr (List.mem_cons_of_mem _ hm)
      · intro h' hh'
        rcases List.mem_cons.mp hh' with rfl | hm
        · exact hle.trans (not_lt.mp hc)
        · exact hall h' hm

/-- C7 — Whenever at least one object reports an intersection, the
nearest-hit query (linear `filter_map` scan followed by `min_by`)
returns a hit that is among the reported intersections and whose
intersection point has the smallest squared distance from the ray's
origin among all of them; this holds for every ray, every
`min_distance` and every object list. -/
theorem c7_nearest_hit_minimal (objects : List Obj) (ray : Ray) (md : ℚ)
    (hne : candidateHits objects ray md ≠ []) :
    ∃ h, nearestHit objects ray md = some h ∧
      h ∈ candidateHits objects ray md ∧
      ∀ h' ∈ candidateHits objects ray md,
        ray.origin.squared_distance h.intersection_point ≤
          ray.origin.squared_distance h'.intersection_point := by
  unfold nearestHit minByDist
  cases hl : candidateHits objects ray md with
  | nil => exact absurd hl hne
  | cons h t =>
    obtain ⟨r, hr, hmem, hle, hall⟩ := foldl_minStep_some ray.origin t h
    refine ⟨r, ?_, ?_, ?_⟩
    · simpa [minStep] using hr
    · rcases hmem with rfl | hm
      · exact List.mem_cons_self _ _
      · exact List.mem_cons_of_mem _ hm
    · intro h' hh'
      rcases List.mem_cons.mp hh' with rfl | hm
      · exact hle
      · exact hall h' hm

/-- A concrete scene for the C7 witness: two objects that always report
fixed intersection points at squared distances `4` and `25` from the
origin. -/
def objNear : Obj :=
  ⟨fun _ _ => some ⟨⟨0, 0, 2⟩, ⟨0, 0, 1⟩⟩, ⟨1, 1, 1⟩⟩

/-- Second concrete object, farther from the ray origin. -/
def objFar : Obj :=
  ⟨fun _ _ => some ⟨⟨0, 0, 5⟩, ⟨0, 0, 1⟩⟩, ⟨1, 1, 1⟩⟩

/-- Witness for C7 on a concrete two-object scene. -/
theorem c7_nearest_hit_minimal_witness :
    candidateHits [objFar, objNear] ⟨⟨0, 0, 0⟩, ⟨0, 0, 1⟩⟩ minDist ≠ [] ∧
      ∃ h, nearestHit [objFar, objNear] ⟨⟨0, 0, 0⟩, ⟨0, 0, 1⟩⟩ minDist = some h ∧
        h ∈ candidateHits [objFar, objNear] ⟨⟨0, 0, 0⟩, ⟨0, 0, 1⟩⟩ minDist ∧
        ∀ h' ∈ candidateHits [objFar, objNear] ⟨⟨0, 0, 0⟩, ⟨0, 0, 1⟩⟩ minDist,
          Vec3.squared_distance ⟨0, 0, 0⟩ h.intersection_point ≤
            Vec3.squared_distance ⟨0, 0, 0⟩ h'.intersection_point :=
  ⟨by simp [candidateHits, objFar, objNear],
    c7_nearest_hit_minimal [objFar, objNear] ⟨⟨0, 0, 0⟩, ⟨0, 0, 1⟩⟩ minDist
      (by simp [candidateHits, objFar, objNear])⟩

/-! ## Camera and renderer (`renderer.rs`; `Camera` modelled from the spec) -/

/-- Modelled from the spec: `Camera` is imported by `renderer.rs` from
`geometry`, but the `geometry.rs` snapshot in `src/` does not define it;
only its interface (`back_project`, `sensor_size_px`) is visible in the
renderer.  Fields follow spec §4.1: orthonormal basis, focal length,
principal point, sensor size in pixels. -/
structure Camera where
  forward : Vec3
  up : Vec3
  right : Vec3
  focal_length : ℚ
  principal_point : ℚ × ℚ
  sensor_size_px : ℕ × ℕ

/-- Modelled from the spec (§4.1): `Camera::new(forward, up_hint,
fov_radians, sensor_size_px)` builds `right = normalize(forward ×
up_in)`, `up = normalize(right × forward)`, `focal_length = 0.5 *
max(sensor_w, sensor_h) / tan(fov/2)` and `principal_point =
(sensor_w/2 - 0.5, sensor_h/2 - 0.5)`; `ftan` stands for `f32` tangent. -/
def Camera.new (fsqrt ftan : ℚ → ℚ) (forward upHint : Vec3) (fovRadians : ℚ)
    (sensor : ℕ × ℕ) : Camera :=
  let right := Vec3.normalized fsqrt (forward.cross upHint)
  { forward := forward
    up := Vec3.normalized fsqrt (right.cross forward)
    right := right
    focal_length :=
      1 / 2 * max (sensor.1 : ℚ) (sensor.2 : ℚ) / ftan (fovRadians / 2)
    principal_point := ((sensor.1 : ℚ) / 2 - 1 / 2, (sensor.2 : ℚ) / 2 - 1 / 2)
    sensor_size_px := sensor }

/-- Modelled from the spec (§4.1): `back_project(x, y)` maps a
(sub-pixel) sensor coordinate to a world ray from the origin, with the
vertical axis flipped: direction `normalize(forward*focal_length +
right*x_ndc + up*y_ndc)`, `x_ndc = x - principal.x`,
`y_ndc = -(y - principal.y)`. -/
def Camera.backProject (fsqrt : ℚ → ℚ) (c : Camera) (x y : ℚ) : Ray :=
  let xndc := x - c.principal_point.1
  let yndc := -(y - c.principal_point.2)
  ⟨⟨0, 0, 0⟩,
    Vec3.normalized fsqrt
      (((c.forward.smul c.focal_length).add (c.right.smul xndc)).add
        (c.up.smul yndc))⟩

/-- Source `renderer.rs` `Renderer`. -/
structure Renderer where
  camera : Camera
  objects : List Obj
  ambient_light_color : Vec3
  max_depth : ℕ
  samples_per_pixel : ℕ

/-- Source `gamma_correct` (`pathtracer.rs`; `renderer.rs` imports it from
`image`, whose snapshot lacks it): square root of each channel. -/
def gamma_correct (fsqrt : ℚ → ℚ) (c : Vec3) : Vec3 :=
  ⟨fsqrt c.x, fsqrt c.y, fsqrt c.z⟩

/-- The sampling loop of `renderer.rs::compute_color_for_pixel`:
`samples_per_pixel` times, jitter the pixel coordinate by
`uniform() - 0.5` in x and y, back-project, trace, and accumulate. -/
def ccfpLoop (fsin fsqrt : ℚ → ℚ) (cam : Camera) (objects : List Obj)
    (ambient : Vec3) (maxDepth fuel : ℕ) (x y : ℚ) :
    ℕ → Vec3 → Rng → Option (Vec3 × Rng)
  | 0, color, r => some (color, r)
  | n + 1, color, r =>
    let (u1, r1) := Rng.uniform fsin r
    let (u2, r2) := Rng.uniform fsin r1
    let xj := x + (u1 - 1 / 2)
    let yj := y + (u2 - 1 / 2)
    let ray := Camera.backProject fsqrt cam xj yj
    match ccfr fsin fsqrt objects ambient fuel maxDepth ray r2 with
    | none => none
    | some (c, r3) =>
      ccfpLoop fsin fsqrt cam objects ambient maxDepth fuel x y n (color.add c) r3

/-- Source `renderer.rs::compute_color_for_pixel`: accumulate
`samples_per_pixel` jittered estimates, divide by the sample count,
gamma-correct and clamp to `[0,1]`. -/
def ccfp (fsin fsqrt : ℚ → ℚ) (rend : Renderer) (fuel : ℕ) (x y : ℚ)
    (r : Rng) : Option (Vec3 × Rng) :=
  (ccfpLoop fsin fsqrt rend.camera rend.objects rend.ambient_light_color
      rend.max_depth fuel x y rend.samples_per_pixel ⟨0, 0, 0⟩ r).map
    (fun cr =>
      (Vec3.clamp
          (gamma_correct fsqrt (cr.1.sdiv (rend.samples_per_pixel : ℚ))) 0 1,
        cr.2))

/-- Source `image.rs` `Image`, with `Color` the `Vector3f` alias used by the
renderer (`data` is row-major, index `= y*width + x`). -/
structure Image where
  width : ℕ
  height : ℕ
  data : List Vec3
deriving DecidableEq, Repr

/-- The pixel loop of `renderer.rs::render`: pixels are processed in
index order `i = 0, 1, …` with `x = i % width`, `y = i / width`, all
through the single sampler `rng` threaded from one pixel to the next.
`k` counts the remaining pixels. -/
def renderFrom (fsin fsqrt : ℚ → ℚ) (rend : Renderer) (fuel w : ℕ) :
    ℕ → ℕ → Rng → Option (List Vec3 × Rng)
  | _, 0, r => some ([], r)
  | i, k + 1, r =>
    match ccfp fsin fsqrt rend fuel ((i % w : ℕ) : ℚ) ((i / w : ℕ) : ℚ) r with
    | none => none
    | some (c, r') =>
      (renderFrom fsin fsqrt rend fuel w (i + 1) k r').map
        (fun csr => (c :: csr.1, csr.2))

/-- Source `renderer.rs::render(seed)`: one sampler `Rng::new(seed)` for the
whole image; every pixel of the `width*height` buffer is filled in
index order. -/
def render (fsin fsqrt : ℚ → ℚ) (rend : Renderer) (fuel : ℕ) (seed : ℚ) :
    Option Image :=
  let w := rend.camera.sensor_size_px.1
  let h := rend.camera.sensor_size_px.2
  (renderFrom fsin fsqrt rend fuel w 0 (w * h) (Rng.new seed)).map
    (fun csr => ⟨w, h, csr.1⟩)

/-! ## Claim C1: per-bounce attenuation -/

/-- Componentwise product of two colors — the spec's "multiply the
recursive result componentwise by the material's attenuation". -/
def cmul (a b : Vec3) : Vec3 := ⟨a.x * b.x, a.y * b.y, a.z * b.z⟩

/-- The scattered ray `compute_color_for_ray` builds on a hit:
`target = hit.point + hit.normal + unit_sphere_sample`, new ray from
the hit point in direction `(target - hit.point).normalized()`. -/
def scatterRay (fsqrt : ℚ → ℚ) (hit : HitData) (usp : Vec3) : Ray :=
  ⟨hit.intersection_point,
    Vec3.normalized fsqrt
      (((hit.intersection_point.add hit.normal).add usp).sub
        hit.intersection_point)⟩

/-- Source `min_by` step on (hit, object) pairs, comparing like `minStep` on
the hit component. -/
def minStepObj (origin : Vec3) (acc : Option (HitData × Obj))
    (h : HitData × Obj) : Option (HitData × Obj) :=
  match acc with
  | none => some h
  | some a =>
    if origin.squared_distance a.1.intersection_point >
        origin.squared_distance h.1.intersection_point then some h else some a

/-- Modelled from the spec (§4.2): `Scene.nearest_hit(ray, min_distance)
-> Option<(HitRecord, &Object)>` — absent from `src/`
(`renderer.rs::compute_color_for_ray` drops the object identity in its
`filter_map`); needed to state which object's material attenuates the
bounce in claim C1. -/
def nearestHitObj (objects : List Obj) (ray : Ray) (minDistance : ℚ) :
    Option (HitData × Obj) :=
  (objects.filterMap
      (fun o => (o.intersect ray minDistance).map (fun h => (h, o)))).foldl
    (minStepObj ray.origin) none

/-- The pair-keeping fold projects onto the hit-keeping fold. -/
theorem foldl_minStepObj_fst (origin : Vec3) (l : List (HitData × Obj)) :
    ∀ acc : Option (HitData × Obj),
      (l.foldl (minStepObj origin) acc).map Prod.fst =
        (l.map Prod.fst).foldl (minStep origin) (acc.map Prod.fst) := by
  induction l with
  | nil => intro acc; rfl
  | cons p t ih =>
    intro acc
    cases acc with
    | none => simpa [minStepObj, minStep] using ih (some p)
    | some a =>
      by_cases hc : origin.squared_distance a.1.intersection_point >
          origin.squared_distance p.1.intersection_point
      · simpa [minStepObj, minStep, hc] using ih (some p)
      · simpa [minStepObj, minStep, hc] using ih (some a)

/-- The candidate (hit, object) pairs project onto the candidate hits of
`renderer.rs`. -/
theorem candidatePairs_fst (objects : List Obj) (ray : Ray) (md : ℚ) :
    (objects.filterMap
        (fun o => (o.intersect ray md).map (fun h => (h, o)))).map Prod.fst =
      candidateHits objects ray md := by
  induction objects with
  | nil => rfl
  | cons o t ih =>
    cases ho : o.intersect ray md with
    | none => simpa [candidateHits, List.filterMap_cons, ho] using ih
    | some h => simpa [candidateHits, List.filterMap_cons, ho] using ih

/-- The integrator's hit (object identity dropped) is the hit component
of the spec's `nearest_hit` pair. -/
theorem nearestHit_eq_fst (objects : List Obj) (ray : Ray) (md : ℚ) :
    nearestHit objects ray md = (nearestHitObj objects ray md).map Prod.fst := by
  unfold nearestHit nearestHitObj minByDist
  rw [foldl_minStepObj_fst, candidatePairs_fst]
  rfl

/-- One unfolding of `compute_color_for_ray` at positive depth. -/
theorem ccfr_succ (fsin fsqrt : ℚ → ℚ) (objects : List Obj) (ambient : Vec3)
    (fuel d : ℕ) (ray : Ray) (r : Rng) :
    ccfr fsin fsqrt objects ambient fuel (d + 1) ray r =
      match nearestHit objects ray minDist with
      | some hit =>
        match Rng.unitSphere fsin fuel r with
        | none => none
        | some (usp, r1) =>
          (ccfr fsin fsqrt objects ambient fuel d
              (scatterRay fsqrt hit usp) r1).map
            (fun cr => (cr.1.smul (1 / 2), cr.2))
      | none => some (ambient, r) := rfl

/-- One unfolding of `compute_color_for_ray` on a hit: scatter, recurse,
halve. -/
theorem ccfr_hit_step (fsin fsqrt : ℚ → ℚ) (objects : List Obj)
    (ambient : Vec3) (fuel d : ℕ) (ray : Ray) (r : Rng) (hit : HitData)
    (usp : Vec3) (r1 : Rng)
    (hnear : nearestHit objects ray minDist = some hit)
    (hus : Rng.unitSphere fsin fuel r = some (usp, r1)) :
    ccfr fsin fsqrt objects ambient fuel (d + 1) ray r =
      (ccfr fsin fsqrt objects ambient fuel d (scatterRay fsqrt hit usp) r1).map
        (fun cr => (cr.1.smul (1 / 2), cr.2)) := by
  rw [ccfr_succ, hnear, hus]

/-- One unfolding of `compute_color_for_ray` on a miss: the ambient
light color is returned and the sampler is untouched. -/
theorem ccfr_miss_step (fsin fsqrt : ℚ → ℚ) (objects : List Obj)
    (ambient : Vec3) (fuel d : ℕ) (ray : Ray) (r : Rng)
    (hnear : nearestHit objects ray minDist = none) :
    ccfr fsin fsqrt objects ambient fuel (d + 1) ray r = some (ambient, r) := by
  rw [ccfr_succ, hnear]

/-- Formal statement of claim C1: whenever a ray hits, the integrator
returns the recursive trace of the scattered ray multiplied
componentwise by the hit object's albedo (its material attenuation). -/
def integratorUsesAlbedo : Prop :=
  ∀ (fsin fsqrt : ℚ → ℚ) (objects : List Obj) (ambient : Vec3)
    (fuel d : ℕ) (ray : Ray) (r : Rng) (hit : HitData) (o : Obj)
    (usp : Vec3) (r1 : Rng) (c : Vec3) (r2 : Rng),
    nearestHitObj objects ray minDist = some (hit, o) →
    Rng.unitSphere fsin fuel r = some (usp, r1) →
    ccfr fsin fsqrt objects ambient fuel d (scatterRay fsqrt hit usp) r1 =
      some (c, r2) →
    ccfr fsin fsqrt objects ambient fuel (d + 1) ray r =
      some (cmul o.albedo c, r2)

/-- A sine stand-in for counterexample scenarios: `uniform` becomes the
exact step `seed ↦ seed + 1/4`, so the draw sequence from seed `0` is
`1/4, 1/2, 3/4, 0, 1/4, …`. -/
def stepFsin : ℚ → ℚ := fun s => (s + 1 / 4) * (10000000 / 437585453123)

/-- Source `uniform` under `stepFsin` advances the seed by exactly `1/4`. -/
theorem uniform_stepFsin (q : ℚ) :
    Rng.uniform stepFsin ⟨q⟩ =
      (q + 1 / 4 - (Int.floor (q + 1 / 4) : ℚ), ⟨q + 1 / 4⟩) := by
  unfold Rng.uniform stepFsin Rng.rngMultiplier
  have hM : (10000000 / 437585453123 : ℚ) * (437585453123 / 10000000) = 1 := by
    norm_num
  have hn : (q + 1 / 4) * (10000000 / 437585453123) *
      (437585453123 / 10000000) = q + 1 / 4 := by
    rw [mul_assoc, hM, mul_one]
  have hq : ¬(q + 1 / 4 = q) := by intro h; linarith
  simp only [hn]
  rw [if_neg hq]

/-- Concrete object for the C1 scenario: reports a fixed hit for rays
from the origin, nothing otherwise; albedo `(1,1,1)`. -/
def objC1 : Obj :=
  ⟨fun ray _ =>
      if ray.origin = ⟨0, 0, 0⟩ then some ⟨⟨2, 2, 2⟩, ⟨0, 0, 1⟩⟩ else none,
    ⟨1, 1, 1⟩⟩

/-- Concrete primary ray for the C1 scenario. -/
def rayC1 : Ray := ⟨⟨0, 0, 0⟩, ⟨0, 0, -1⟩⟩

/-- The hit `objC1` reports. -/
def hitC1 : HitData := ⟨⟨2, 2, 2⟩, ⟨0, 0, 1⟩⟩

/-- The unit-ball sample drawn from seed `0` under `stepFsin`. -/
def uspC1 : Vec3 := ⟨-(1 / 2), 0, 1 / 2⟩

/-- The nearest hit of the C1 scene on the primary ray. -/
theorem objC1_nearest :
    nearestHitObj [objC1] rayC1 minDist = some (hitC1, objC1) := by
  simp [nearestHitObj, objC1, rayC1, hitC1, minStepObj]

/-- Source `unit_sphere` under `stepFsin` from seed `0`: the first candidate
`(-1/2, -1, -1/2)`‑style triple is drawn after one rejection of the
initial `(1,1,1)`, landing on `(-1/2, 0, 1/2)` with final seed `3/4`. -/
theorem stepFsin_unitSphere :
    Rng.unitSphere stepFsin 2 (Rng.new 0) = some (uspC1, ⟨3 / 4⟩) := by
  norm_num [Rng.unitSphere, Rng.unitSphereLoop, Rng.new, uniform_stepFsin,
    uspC1, Vec3.squared_length, Vec3.dot, Prod.ext_iff]

/-- The scattered ray of the C1 scenario starts at `(2,2,2)`, so it
misses `objC1` and the depth-1 trace returns the ambient color. -/
theorem objC1_recurse :
    ccfr stepFsin (fun q => q) [objC1] ⟨1, 1, 1⟩ 2 1
        (scatterRay (fun q => q) hitC1 uspC1) ⟨3 / 4⟩ =
      some (⟨1, 1, 1⟩, ⟨3 / 4⟩) := by
  have hm : nearestHit [objC1] (scatterRay (fun q => q) hitC1 uspC1) minDist
      = none := by
    norm_num [nearestHit, candidateHits, minByDist, objC1, scatterRay, hitC1,
      uspC1]
  exact ccfr_miss_step stepFsin (fun q => q) [objC1] ⟨1, 1, 1⟩ 2 0
    (scatterRay (fun q => q) hitC1 uspC1) ⟨3 / 4⟩ hm

/-- C1 counterexample — the claim is false on the code: in a concrete
one-object scene with albedo `(1,1,1)` the integrator returns half the
recursive result, not `albedo ⊙ recursive result`. -/
theorem c1_counterexample : ¬integratorUsesAlbedo := by
  intro hcl
  have h := hcl stepFsin (fun q => q) [objC1] ⟨1, 1, 1⟩ 2 1 rayC1 (Rng.new 0)
    hitC1 objC1 uspC1 ⟨3 / 4⟩ ⟨1, 1, 1⟩ ⟨3 / 4⟩ objC1_nearest
    stepFsin_unitSphere objC1_recurse
  have hn : nearestHit [objC1] rayC1 minDist = some hitC1 := by
    rw [nearestHit_eq_fst, objC1_nearest]; rfl
  rw [ccfr_hit_step stepFsin (fun q => q) [objC1] ⟨1, 1, 1⟩ 2 1 rayC1
      (Rng.new 0) hitC1 uspC1 ⟨3 / 4⟩ hn stepFsin_unitSphere,
    objC1_recurse] at h
  norm_num [Vec3.smul, cmul, objC1] at h

/-- C1 (amended) — For every ray that hits an object, the integrator
returns the recursive trace result of the scattered ray multiplied by
the constant scalar attenuation `0.5`; the hit object's material albedo
is never consulted. -/
theorem c1_attenuation_is_half (fsin fsqrt : ℚ → ℚ) (objects : List Obj)
    (ambient : Vec3) (fuel d : ℕ) (ray : Ray) (r : Rng) (hit : HitData)
    (o : Obj) (usp : Vec3) (r1 : Rng) (c : Vec3) (r2 : Rng)
    (hnear : nearestHitObj objects ray minDist = some (hit, o))
    (hus : Rng.unitSphere fsin fuel r = some (usp, r1))
    (hrec : ccfr fsin fsqrt objects ambient fuel d
        (scatterRay fsqrt hit usp) r1 = some (c, r2)) :
    ccfr fsin fsqrt objects ambient fuel (d + 1) ray r =
      some (c.smul (1 / 2), r2) := by
  have hn : nearestHit objects ray minDist = some hit := by
    rw [nearestHit_eq_fst, hnear]; rfl
  rw [ccfr_hit_step fsin fsqrt objects ambient fuel d ray r hit usp r1 hn hus,
    hrec]
  rfl

/-- Witness for the amended C1 at the concrete scenario. -/
theorem c1_attenuation_is_half_witness :
    nearestHitObj [objC1] rayC1 minDist = some (hitC1, objC1) ∧
      Rng.unitSphere stepFsin 2 (Rng.new 0) = some (uspC1, ⟨3 / 4⟩) ∧
      ccfr stepFsin (fun q => q) [objC1] ⟨1, 1, 1⟩ 2 1
          (scatterRay (fun q => q) hitC1 uspC1) ⟨3 / 4⟩ =
        some (⟨1, 1, 1⟩, ⟨3 / 4⟩) ∧
      ccfr stepFsin (fun q => q) [objC1] ⟨1, 1, 1⟩ 2 (1 + 1) rayC1
          (Rng.new 0) = some (Vec3.smul ⟨1, 1, 1⟩ (1 / 2), ⟨3 / 4⟩) :=
  ⟨objC1_nearest, stepFsin_unitSphere, objC1_recurse,
    c1_attenuation_is_half stepFsin (fun q => q) [objC1] ⟨1, 1, 1⟩ 2 1 rayC1
      (Rng.new 0) hitC1 objC1 uspC1 ⟨3 / 4⟩ ⟨1, 1, 1⟩ ⟨3 / 4⟩ objC1_nearest
      stepFsin_unitSphere objC1_recurse⟩

/-! ## Claim C2: per-pixel sampler locality of `render` -/

/-- Identity stand-in for `f32::sqrt` in the C2 scenario (only the sign
and vanishing of ray components matter there, and both are preserved). -/
def idq : ℚ → ℚ := fun q => q

/-- The C2 camera: spec camera with `forward = (0,0,-1)`,
`up = (0,1,0)`, a 2×1 sensor and a field of view whose half-angle
tangent is `1` (90°). -/
def camC2 : Camera :=
  Camera.new idq (fun _ => 1) ⟨0, 0, -1⟩ ⟨0, 1, 0⟩ (157 / 100) (2, 1)

/-- The C2 renderer: `max_depth = 2`, `samples_per_pixel = 1`, white
ambient light. -/
def rendC2 (objects : List Obj) : Renderer :=
  ⟨camC2, objects, ⟨1, 1, 1⟩, 2, 1⟩

/-- Evaluated form of the C2 camera. -/
theorem camC2_eval :
    camC2 = ⟨⟨0, 0, -1⟩, ⟨0, 1, 0⟩, ⟨1, 0, 0⟩, 1, (1 / 2, 0), (2, 1)⟩ := by
  norm_num [camC2, Camera.new, idq, Vec3.normalized, Vec3.cross, Vec3.dot,
    Vec3.sdiv, Prod.ext_iff]

/-- Object `A` of the C2 scene: hit exactly by camera rays whose
direction has vanishing x-component (the jitter-dependent rays of pixel
`(1,0)`), never by bounce rays (origin `≠ 0`). -/
def objA : Obj :=
  ⟨fun ray _ =>
      if ray.origin = ⟨0, 0, 0⟩ ∧ ray.direction.x = 0 then
        some ⟨⟨2, 2, 2⟩, ⟨0, 0, 1⟩⟩
      else none,
    ⟨1, 1, 1⟩⟩

/-- Object `B` of the C2 scene: hit exactly by camera rays whose
direction points left (every jittered ray of pixel `(0,0)`), never by
the rays of pixel `(1,0)` and never by bounce rays. -/
def objB : Obj :=
  ⟨fun ray _ =>
      if ray.origin = ⟨0, 0, 0⟩ ∧ ray.direction.x < 0 then
        some ⟨⟨2, 2, 2⟩, ⟨0, 0, 1⟩⟩
      else none,
    ⟨1, 1, 1⟩⟩

/-- Rays of sensor coordinates right of the principal point (as all
jittered coordinates of pixel `x = 1` are) have a nonnegative direction
x-component under the C2 camera. -/
theorem camC2_ray_x_nonneg (xj yj : ℚ) (hxj : 1 / 2 ≤ xj) :
    ¬(Camera.backProject idq camC2 xj yj).direction.x < 0 := by
  rw [camC2_eval]
  simp only [Camera.backProject, Vec3.normalized, Vec3.smul, Vec3.add,
    Vec3.sdiv, Vec3.dot, idq, not_lt]
  apply div_nonneg
  · linarith
  · nlinarith [sq_nonneg (xj - 1 / 2), sq_nonneg (yj - 0)]

/-- Any hit reported by the one-object scene `[objA]` is the constant
hit of `objA`, at intersection point `(2,2,2)`. -/
theorem nearestHit_objA_point (ray : Ray) (hit : HitData)
    (hh : nearestHit [objA] ray minDist = some hit) :
    hit.intersection_point = ⟨2, 2, 2⟩ := by
  unfold nearestHit candidateHits objA at hh
  by_cases hc : ray.origin = ⟨0, 0, 0⟩ ∧ ray.direction.x = 0
  · simp [hc, minByDist, minStep] at hh
    rw [← hh]
  · simp [hc, minByDist] at hh

/-- Scene noninterference for the C2 scenario: `objB` is invisible to a
ray (and, inductively, to its whole bounce tree, whose rays all start at
`(2,2,2)`), so tracing against `[objA, objB]` equals tracing against
`[objA]` — colors and sampler state alike. -/
theorem ccfr_AB_eq_A (fuel : ℕ) :
    ∀ (d : ℕ) (ray : Ray) (r : Rng),
      objB.intersect ray minDist = none →
      ccfr stepFsin idq [objA, objB] ⟨1, 1, 1⟩ fuel d ray r =
        ccfr stepFsin idq [objA] ⟨1, 1, 1⟩ fuel d ray r := by
  intro d
  induction d with
  | zero => intro ray r _; rfl
  | succ d ih =>
    intro ray r hB
    have hc : candidateHits [objA, objB] ray minDist =
        candidateHits [objA] ray minDist := by
      unfold candidateHits
      cases ha : objA.intersect ray minDist with
      | none => simp [List.filterMap_cons, ha, hB]
      | some h => simp [List.filterMap_cons, ha, hB]
    have hn : nearestHit [objA, objB] ray minDist =
        nearestHit [objA] ray minDist := by
      unfold nearestHit
      rw [hc]
    cases hh : nearestHit [objA] ray minDist with
    | none => rw [ccfr_succ, ccfr_succ, hn, hh]
    | some hit =>
      cases hUS : Rng.unitSphere stepFsin fuel r with
      | none => rw [ccfr_succ, ccfr_succ, hn, hh]; simp only [hUS]
      | some vr =>
        obtain ⟨usp, r1⟩ := vr
        have hpt : hit.intersection_point = ⟨2, 2, 2⟩ :=
          nearestHit_objA_point ray hit hh
        have hB' : objB.intersect (scatterRay idq hit usp) minDist = none := by
          norm_num [objB, scatterRay, hpt]
        rw [ccfr_succ, ccfr_succ, hn, hh]
        simp only [hUS]
        rw [ih (scatterRay idq hit usp) r1 hB']

/-- One unfolding of the per-pixel sampling loop. -/
theorem ccfpLoop_succ (fsin fsqrt : ℚ → ℚ) (cam : Camera)
    (objects : List Obj) (ambient : Vec3) (maxDepth fuel : ℕ) (x y : ℚ)
    (n : ℕ) (color : Vec3) (r : Rng) :
    ccfpLoop fsin fsqrt cam objects ambient maxDepth fuel x y (n + 1) color r =
      (let (u1, r1) := Rng.uniform fsin r
       let (u2, r2) := Rng.uniform fsin r1
       let xj := x + (u1 - 1 / 2)
       let yj := y + (u2 - 1 / 2)
       let ray := Camera.backProject fsqrt cam xj yj
       match ccfr fsin fsqrt objects ambient fuel maxDepth ray r2 with
       | none => none
       | some (c, r3) =>
         ccfpLoop fsin fsqrt cam objects ambient maxDepth fuel x y n
           (color.add c) r3) := rfl

/-- Pixel `(1,0)` cannot see `objB` from any sampler state: its sampling
loop behaves identically against `[objA, objB]` and `[objA]`. -/
theorem ccfpLoop_AB_agree (n : ℕ) :
    ∀ (color : Vec3) (r : Rng),
      ccfpLoop stepFsin idq camC2 [objA, objB] ⟨1, 1, 1⟩ 2 5 1 0 n color r =
        ccfpLoop stepFsin idq camC2 [objA] ⟨1, 1, 1⟩ 2 5 1 0 n color r := by
  induction n with
  | zero => intro color r; rfl
  | succ n ih =>
    intro color r
    obtain ⟨q⟩ := r
    rw [ccfpLoop_succ, ccfpLoop_succ]
    simp only [uniform_stepFsin]
    have hu : (0 : ℚ) ≤ q + 1 / 4 - (Int.floor (q + 1 / 4) : ℚ) := by
      have := Int.floor_le (q + 1 / 4)
      linarith
    have hB : objB.intersect
        (Camera.backProject idq camC2
          (1 + (q + 1 / 4 - (Int.floor (q + 1 / 4) : ℚ) - 1 / 2))
          (0 + (q + 1 / 4 + 1 / 4 - (Int.floor (q + 1 / 4 + 1 / 4) : ℚ) - 1 / 2)))
        minDist = none := by
      simp only [objB]
      rw [if_neg]
      intro hcond
      exact camC2_ray_x_nonneg _ _ (by linarith) hcond.2
    rw [ccfr_AB_eq_A 5 2 _ _ hB]
    cases hres : ccfr stepFsin idq [objA] ⟨1, 1, 1⟩ 5 2
        (Camera.backProject idq camC2
          (1 + (q + 1 / 4 - (Int.floor (q + 1 / 4) : ℚ) - 1 / 2))
          (0 + (q + 1 / 4 + 1 / 4 - (Int.floor (q + 1 / 4 + 1 / 4) : ℚ) - 1 / 2)))
        ⟨q + 1 / 4 + 1 / 4⟩ with
    | none => rfl
    | some cr =>
      obtain ⟨c, r3⟩ := cr
      exact ih (color.add c) r3

/-- Pixel `(1,0)`'s full per-pixel computation agrees between the two
C2 scenes from every sampler state. -/
theorem ccfp_pixel1_agree (r : Rng) :
    ccfp stepFsin idq (rendC2 [objA]) 5 1 0 r =
      ccfp stepFsin idq (rendC2 [objA, objB]) 5 1 0 r := by
  unfold ccfp rendC2
  simp only
  rw [ccfpLoop_AB_agree]

/-- Bounce rays of the C2 scenario start at `(2,2,2)` and miss both
objects. -/
theorem c2_bounce_miss :
    nearestHit [objA, objB]
      (scatterRay idq ⟨⟨2, 2, 2⟩, ⟨0, 0, 1⟩⟩ ⟨-(1 / 2), 0, 1 / 2⟩) minDist =
      none := by
  norm_num [nearestHit, candidateHits, minByDist, minStep, objA, objB, minDist,
    List.filterMap_cons, scatterRay, Vec3.normalized, Vec3.sdiv, Vec3.smul,
    Vec3.add, Vec3.sub, Vec3.dot, idq]

/-- Scene `[objA]`, pixel `(0,0)`, seed `0`: the jittered ray points
left, misses, and the pixel is ambient white after two draws. -/
theorem c2_O1_pixel0 :
    ccfp stepFsin idq (rendC2 [objA]) 5 0 0 (Rng.new 0) =
      some (⟨1, 1, 1⟩, ⟨1 / 2⟩) := by
  norm_num [ccfp, rendC2, ccfpLoop, uniform_stepFsin, Rng.new, camC2_eval,
    Camera.backProject, ccfr, nearestHit, candidateHits, minByDist, minStep,
    objA, minDist, List.filterMap_cons, Vec3.normalized, Vec3.sdiv, Vec3.smul,
    Vec3.add, Vec3.dot, idq, gamma_correct, Vec3.clamp, Prod.ext_iff]

/-- Scene `[objA]`, pixel `(1,0)` from the state the first pixel left
behind: jitter `3/4` gives a ray right of the axis, missing `objA`. -/
theorem c2_O1_pixel1 :
    ccfp stepFsin idq (rendC2 [objA]) 5 1 0 ⟨1 / 2⟩ =
      some (⟨1, 1, 1⟩, ⟨1⟩) := by
  norm_num [ccfp, rendC2, ccfpLoop, uniform_stepFsin, camC2_eval,
    Camera.backProject, ccfr, nearestHit, candidateHits, minByDist, minStep,
    objA, minDist, List.filterMap_cons, Vec3.normalized, Vec3.sdiv, Vec3.smul,
    Vec3.add, Vec3.dot, idq, gamma_correct, Vec3.clamp, Prod.ext_iff]

/-- Scene `[objA, objB]`, pixel `(0,0)`: the left-pointing ray hits
`objB`. -/
theorem c2_nh00 :
    nearestHit [objA, objB] ⟨⟨0, 0, 0⟩, ⟨-(12 / 25), 0, -(16 / 25)⟩⟩ minDist =
      some ⟨⟨2, 2, 2⟩, ⟨0, 0, 1⟩⟩ := by
  norm_num [nearestHit, candidateHits, minByDist, minStep, objA, objB, minDist,
    List.filterMap_cons]

/-- Source `unit_sphere` under `stepFsin` from seed `1/2`: three rejections of
candidate points, nine draws, final seed `11/4`. -/
theorem c2_us_half :
    Rng.unitSphere stepFsin 5 ⟨1 / 2⟩ =
      some (⟨-(1 / 2), 0, 1 / 2⟩, ⟨11 / 4⟩) := by
  norm_num [Rng.unitSphere, Rng.unitSphereLoop, uniform_stepFsin,
    Vec3.squared_length, Vec3.dot, Prod.ext_iff]

/-- Trace of pixel `(0,0)`'s ray in scene `[objA, objB]`: hit `objB`,
scatter (nine sampler draws), bounce misses, half of ambient. -/
theorem c2_ccfr_O2_p0 :
    ccfr stepFsin idq [objA, objB] ⟨1, 1, 1⟩ 5 2
        ⟨⟨0, 0, 0⟩, ⟨-(12 / 25), 0, -(16 / 25)⟩⟩ ⟨1 / 2⟩ =
      some (⟨1 / 2, 1 / 2, 1 / 2⟩, ⟨11 / 4⟩) := by
  have h2 := ccfr_miss_step stepFsin idq [objA, objB] ⟨1, 1, 1⟩ 5 0
    (scatterRay idq ⟨⟨2, 2, 2⟩, ⟨0, 0, 1⟩⟩ ⟨-(1 / 2), 0, 1 / 2⟩) ⟨11 / 4⟩
    c2_bounce_miss
  have h1 := ccfr_hit_step stepFsin idq [objA, objB] ⟨1, 1, 1⟩ 5 1
    ⟨⟨0, 0, 0⟩, ⟨-(12 / 25), 0, -(16 / 25)⟩⟩ ⟨1 / 2⟩ ⟨⟨2, 2, 2⟩, ⟨0, 0, 1⟩⟩
    ⟨-(1 / 2), 0, 1 / 2⟩ ⟨11 / 4⟩ c2_nh00 c2_us_half
  rw [show (2 : ℕ) = 1 + 1 from rfl, h1, show (1 : ℕ) = 0 + 1 from rfl, h2]
  norm_num [Vec3.smul, Prod.ext_iff]

/-- Scene `[objA, objB]`, pixel `(0,0)`, seed `0`: gray after eleven
draws. -/
theorem c2_O2_pixel0 :
    ccfp stepFsin idq (rendC2 [objA, objB]) 5 0 0 (Rng.new 0) =
      some (⟨1 / 2, 1 / 2, 1 / 2⟩, ⟨11 / 4⟩) := by
  norm_num [ccfp, rendC2, ccfpLoop, uniform_stepFsin, Rng.new, camC2_eval,
    Camera.backProject, Vec3.normalized, Vec3.sdiv, Vec3.smul, Vec3.add,
    Vec3.dot, idq, c2_ccfr_O2_p0, gamma_correct, Vec3.clamp, Prod.ext_iff]

/-- Scene `[objA, objB]`, pixel `(1,0)` from the state pixel `(0,0)`
left behind: the jitter draw is now `0`, the ray has vanishing
x-direction and hits `objA`. -/
theorem c2_nh11 :
    nearestHit [objA, objB] ⟨⟨0, 0, 0⟩, ⟨0, 4 / 17, -(16 / 17)⟩⟩ minDist =
      some ⟨⟨2, 2, 2⟩, ⟨0, 0, 1⟩⟩ := by
  norm_num [nearestHit, candidateHits, minByDist, minStep, objA, objB, minDist,
    List.filterMap_cons]

/-- Source `unit_sphere` under `stepFsin` from seed `13/4`: two rejections,
six draws, final seed `19/4`. -/
theorem c2_us_quarter13 :
    Rng.unitSphere stepFsin 5 ⟨13 / 4⟩ =
      some (⟨-(1 / 2), 0, 1 / 2⟩, ⟨19 / 4⟩) := by
  norm_num [Rng.unitSphere, Rng.unitSphereLoop, uniform_stepFsin,
    Vec3.squared_length, Vec3.dot, Prod.ext_iff]

/-- Trace of pixel `(1,0)`'s ray in scene `[objA, objB]`. -/
theorem c2_ccfr_O2_p1 :
    ccfr stepFsin idq [objA, objB] ⟨1, 1, 1⟩ 5 2
        ⟨⟨0, 0, 0⟩, ⟨0, 4 / 17, -(16 / 17)⟩⟩ ⟨13 / 4⟩ =
      some (⟨1 / 2, 1 / 2, 1 / 2⟩, ⟨19 / 4⟩) := by
  have h2 := ccfr_miss_step stepFsin idq [objA, objB] ⟨1, 1, 1⟩ 5 0
    (scatterRay idq ⟨⟨2, 2, 2⟩, ⟨0, 0, 1⟩⟩ ⟨-(1 / 2), 0, 1 / 2⟩) ⟨19 / 4⟩
    c2_bounce_miss
  have h1 := ccfr_hit_step stepFsin idq [objA, objB] ⟨1, 1, 1⟩ 5 1
    ⟨⟨0, 0, 0⟩, ⟨0, 4 / 17, -(16 / 17)⟩⟩ ⟨13 / 4⟩ ⟨⟨2, 2, 2⟩, ⟨0, 0, 1⟩⟩
    ⟨-(1 / 2), 0, 1 / 2⟩ ⟨19 / 4⟩ c2_nh11 c2_us_quarter13
  rw [show (2 : ℕ) = 1 + 1 from rfl, h1, show (1 : ℕ) = 0 + 1 from rfl, h2]
  norm_num [Vec3.smul, Prod.ext_iff]

/-- Scene `[objA, objB]`, pixel `(1,0)` from the state pixel `(0,0)`
left behind: gray — while the same pixel under `[objA]` was white. -/
theorem c2_O2_pixel1 :
    ccfp stepFsin idq (rendC2 [objA, objB]) 5 1 0 ⟨11 / 4⟩ =
      some (⟨1 / 2, 1 / 2, 1 / 2⟩, ⟨19 / 4⟩) := by
  norm_num [ccfp, rendC2, ccfpLoop, uniform_stepFsin, camC2_eval,
    Camera.backProject, Vec3.normalized, Vec3.sdiv, Vec3.smul, Vec3.add,
    Vec3.dot, idq, c2_ccfr_O2_p1, gamma_correct, Vec3.clamp, Prod.ext_iff]

/-- The C2 sensor is 2×1. -/
theorem rendC2_sensor (objects : List Obj) :
    (rendC2 objects).camera.sensor_size_px = (2, 1) := rfl

/-- Full pixel loop of `render` over scene `[objA]`. -/
theorem c2_renderFrom_O1 :
    renderFrom stepFsin idq (rendC2 [objA]) 5 2 0 2 (Rng.new 0) =
      some ([⟨1, 1, 1⟩, ⟨1, 1, 1⟩], ⟨1⟩) := by
  norm_num [renderFrom, c2_O1_pixel0, c2_O1_pixel1, Prod.ext_iff]

/-- Full pixel loop of `render` over scene `[objA, objB]`. -/
theorem c2_renderFrom_O2 :
    renderFrom stepFsin idq (rendC2 [objA, objB]) 5 2 0 2 (Rng.new 0) =
      some ([⟨1 / 2, 1 / 2, 1 / 2⟩, ⟨1 / 2, 1 / 2, 1 / 2⟩], ⟨19 / 4⟩) := by
  norm_num [renderFrom, c2_O2_pixel0, c2_O2_pixel1, Prod.ext_iff]

/-- Source `render` of the scene `[objA]` at seed `0`. -/
theorem c2_render_O1 :
    render stepFsin idq (rendC2 [objA]) 5 0 =
      some ⟨2, 1, [⟨1, 1, 1⟩, ⟨1, 1, 1⟩]⟩ := by
  norm_num [render, rendC2_sensor, c2_renderFrom_O1]

/-- Source `render` of the scene `[objA, objB]` at seed `0`. -/
theorem c2_render_O2 :
    render stepFsin idq (rendC2 [objA, objB]) 5 0 =
      some ⟨2, 1, [⟨1 / 2, 1 / 2, 1 / 2⟩, ⟨1 / 2, 1 / 2, 1 / 2⟩]⟩ := by
  norm_num [render, rendC2_sensor, c2_renderFrom_O2]

/-- One unfolding of the pixel loop of `render`. -/
theorem renderFrom_succ (fsin fsqrt : ℚ → ℚ) (rend : Renderer)
    (fuel w i k : ℕ) (r : Rng) :
    renderFrom fsin fsqrt rend fuel w i (k + 1) r =
      match ccfp fsin fsqrt rend fuel ((i % w : ℕ) : ℚ) ((i / w : ℕ) : ℚ) r with
      | none => none
      | some (c, r') =>
        (renderFrom fsin fsqrt rend fuel w (i + 1) k r').map
          (fun csr => (c :: csr.1, csr.2)) := rfl

/-- Formal statement of claim C2: the color `Renderer::render` assigns
to a pixel is a deterministic function of `(seed, x, y)` alone — in
particular, it cannot change when the scene is altered in a way the
pixel's own computation cannot observe (identical
`compute_color_for_pixel` outcome from every sampler state), because
any such alteration only affects which draws *other* pixels consume. -/
def pixelStreamLocal : Prop :=
  ∀ (fsin fsqrt : ℚ → ℚ) (cam : Camera) (amb : Vec3) (maxd spp fuel : ℕ)
    (objs₁ objs₂ : List Obj) (seed : ℚ) (i : ℕ) (img₁ img₂ : Image),
    (∀ r : Rng,
      ccfp fsin fsqrt ⟨cam, objs₁, amb, maxd, spp⟩ fuel
          ((i % cam.sensor_size_px.1 : ℕ) : ℚ)
          ((i / cam.sensor_size_px.1 : ℕ) : ℚ) r =
        ccfp fsin fsqrt ⟨cam, objs₂, amb, maxd, spp⟩ fuel
          ((i % cam.sensor_size_px.1 : ℕ) : ℚ)
          ((i / cam.sensor_size_px.1 : ℕ) : ℚ) r) →
    render fsin fsqrt ⟨cam, objs₁, amb, maxd, spp⟩ fuel seed = some img₁ →
    render fsin fsqrt ⟨cam, objs₂, amb, maxd, spp⟩ fuel seed = some img₂ →
    img₁.data.getD i ⟨0, 0, 0⟩ = img₂.data.getD i ⟨0, 0, 0⟩

/-- C2 counterexample — the claim is false on the code: `render` threads
one sampler through all pixels, so adding `objB` (invisible to pixel
`(1,0)` from every sampler state, by `ccfp_pixel1_agree`) changes how
many draws pixel `(0,0)` consumes and flips pixel `(1,0)` from white to
gray at the same seed. -/
theorem c2_counterexample : ¬pixelStreamLocal := by
  intro hcl
  have hagree : ∀ r : Rng,
      ccfp stepFsin idq ⟨camC2, [objA], ⟨1, 1, 1⟩, 2, 1⟩ 5
          ((1 % camC2.sensor_size_px.1 : ℕ) : ℚ)
          ((1 / camC2.sensor_size_px.1 : ℕ) : ℚ) r =
        ccfp stepFsin idq ⟨camC2, [objA, objB], ⟨1, 1, 1⟩, 2, 1⟩ 5
          ((1 % camC2.sensor_size_px.1 : ℕ) : ℚ)
          ((1 / camC2.sensor_size_px.1 : ℕ) : ℚ) r := by
    intro r
    have hA := ccfp_pixel1_agree r
    unfold rendC2 at hA
    have hs : camC2.sensor_size_px = (2, 1) := rfl
    rw [hs]
    norm_num
    exact hA
  have h := hcl stepFsin idq camC2 ⟨1, 1, 1⟩ 2 1 5 [objA] [objA, objB] 0 1
    ⟨2, 1, [⟨1, 1, 1⟩, ⟨1, 1, 1⟩]⟩
    ⟨2, 1, [⟨1 / 2, 1 / 2, 1 / 2⟩, ⟨1 / 2, 1 / 2, 1 / 2⟩]⟩
    hagree c2_render_O1 c2_render_O2
  norm_num [List.getD_cons_succ, List.getD_cons_zero] at h

/-- C2 (amended) — `Renderer::render` threads a single sampler through
the pixels in row-major index order: the color stored for pixel `j` is
`compute_color_for_pixel` at that pixel's coordinates applied to the
sampler state left behind by the first `j` pixels.  A pixel's color is
therefore deterministic per seed for a fixed renderer, but depends on
the draws consumed by every preceding pixel (and hence on the scene
through them), not on `(seed, x, y)` alone. -/
theorem c2_render_threads_sampler (fsin fsqrt : ℚ → ℚ) (rend : Renderer)
    (fuel w : ℕ) :
    ∀ (j : ℕ), ∀ (k i : ℕ) (r : Rng) (cs : List Vec3) (rf : Rng),
      renderFrom fsin fsqrt rend fuel w i k r = some (cs, rf) → j < k →
      ∃ (pre : List Vec3) (rj : Rng) (c : Vec3) (rj' : Rng),
        renderFrom fsin fsqrt rend fuel w i j r = some (pre, rj) ∧
          ccfp fsin fsqrt rend fuel (((i + j) % w : ℕ) : ℚ)
              (((i + j) / w : ℕ) : ℚ) rj = some (c, rj') ∧
          cs.getD j ⟨0, 0, 0⟩ = c := by
  intro j
  induction j with
  | zero =>
    intro k i r cs rf hk hlt
    obtain ⟨k', rfl⟩ : ∃ k', k = k' + 1 := ⟨k - 1, by omega⟩
    rw [renderFrom_succ] at hk
    cases hc : ccfp fsin fsqrt rend fuel ((i % w : ℕ) : ℚ) ((i / w : ℕ) : ℚ) r with
    | none => simp only [hc] at hk; exact Option.noConfusion hk
    | some cr =>
      obtain ⟨c, r'⟩ := cr
      simp only [hc] at hk
      cases hrest : renderFrom fsin fsqrt rend fuel w (i + 1) k' r' with
      | none => simp only [hrest, Option.map_none'] at hk; exact Option.noConfusion hk
      | some csr =>
        obtain ⟨cs', rf₂⟩ := csr
        simp only [hrest, Option.map_some', Option.some.injEq,
          Prod.mk.injEq] at hk
        obtain ⟨rfl, rfl⟩ := hk
        refine ⟨[], r, c, r', rfl, ?_, rfl⟩
        simpa using hc
  | succ j ih =>
    intro k i r cs rf hk hlt
    obtain ⟨k', rfl⟩ : ∃ k', k = k' + 1 := ⟨k - 1, by omega⟩
    rw [renderFrom_succ] at hk
    cases hc : ccfp fsin fsqrt rend fuel ((i % w : ℕ) : ℚ) ((i / w : ℕ) : ℚ) r with
    | none => simp only [hc] at hk; exact Option.noConfusion hk
    | some cr =>
      obtain ⟨c, r'⟩ := cr
      simp only [hc] at hk
      cases hrest : renderFrom fsin fsqrt rend fuel w (i + 1) k' r' with
      | none => simp only [hrest, Option.map_none'] at hk; exact Option.noConfusion hk
      | some csr =>
        obtain ⟨cs', rf₂⟩ := csr
        simp only [hrest, Option.map_some', Option.some.injEq,
          Prod.mk.injEq] at hk
        obtain ⟨rfl, rfl⟩ := hk
        have hjk : j < k' := by omega
        obtain ⟨pre', rj, c', rj', hpre, hccfp, hget⟩ :=
          ih k' (i + 1) r' cs' rf₂ hrest hjk
        refine ⟨c :: pre', rj, c', rj', ?_, ?_, ?_⟩
        · rw [renderFrom_succ]
          simp only [hc, hpre, Option.map_some']
        · have harith : i + (j + 1) = i + 1 + j := by omega
          rw [harith]
          exact hccfp
        · simpa using hget

/-- Witness for the amended C2 at the concrete `[objA]` render: pixel
`1`'s color is `compute_color_for_pixel` at the state pixel `0` left. -/
theorem c2_render_threads_sampler_witness :
    renderFrom stepFsin idq (rendC2 [objA]) 5 2 0 2 (Rng.new 0) =
        some ([⟨1, 1, 1⟩, ⟨1, 1, 1⟩], ⟨1⟩) ∧
      (1 : ℕ) < 2 ∧
      ∃ (pre : List Vec3) (rj : Rng) (c : Vec3) (rj' : Rng),
        renderFrom stepFsin idq (rendC2 [objA]) 5 2 0 1 (Rng.new 0) =
            some (pre, rj) ∧
          ccfp stepFsin idq (rendC2 [objA]) 5 (((0 + 1) % 2 : ℕ) : ℚ)
              (((0 + 1) / 2 : ℕ) : ℚ) rj = some (c, rj') ∧
          List.getD [⟨1, 1, 1⟩, ⟨1, 1, 1⟩] 1 ⟨0, 0, 0⟩ = c :=
  ⟨c2_renderFrom_O1, by norm_num,
    c2_render_threads_sampler stepFsin idq (rendC2 [objA]) 5 2 1 2 0
      (Rng.new 0) [⟨1, 1, 1⟩, ⟨1, 1, 1⟩] ⟨1⟩ c2_renderFrom_O1 (by norm_num)⟩

/-! ## Claim C3: parallel averaging (`average_render`) -/

/-- Join a list of per-seed results: `none` as soon as one render
diverged (a stalled worker stalls the whole average, spec §5). -/
def seqOpt {α : Type} : List (Option α) → Option (List α)
  | [] => some []
  | none :: _ => none
  | some a :: rest => (seqOpt rest).map (fun l => a :: l)

/-- Modelled from the spec (§4.7): `average_render(seeds)` — absent from
`src/` (`renderer.rs` carries it only as commented-out code while
`main.rs` calls it): runs one full `render` per seed, joins them, and
combines with equal weight `1/len(seeds)` by summing each corresponding
pixel's color times the weight. -/
def averageRender (fsin fsqrt : ℚ → ℚ) (rend : Renderer) (fuel : ℕ)
    (seeds : List ℚ) : Option Image :=
  (seqOpt (seeds.map (render fsin fsqrt rend fuel))).map
    (fun imgs =>
      let w := rend.camera.sensor_size_px.1
      let h := rend.camera.sensor_size_px.2
      let weight : ℚ := 1 / (seeds.length : ℚ)
      ⟨w, h,
        (List.range (w * h)).map
          (fun i =>
            Vec3.vsum
              (imgs.map (fun img => (img.data.getD i ⟨0, 0, 0⟩).smul weight)))⟩)

/-- Componentwise vector sums are invariant under permutation. -/
theorem vsum_perm {l₁ l₂ : List Vec3} (hp : l₁.Perm l₂) :
    Vec3.vsum l₁ = Vec3.vsum l₂ := by
  induction hp with
  | nil => rfl
  | cons a hp ih => simp [Vec3.vsum, ih]
  | swap a b l =>
    simp only [Vec3.vsum, Vec3.add]
    refine Vec3.mk.injEq .. ▸ ?_
    refine ⟨by ring, by ring, by ring⟩
  | trans h₁ h₂ ih₁ ih₂ => rw [ih₁, ih₂]

/-- Joining the images of a permuted seed list diverges on exactly the
same seed lists and yields a permuted image list. -/
theorem seqOpt_map_perm {α β : Type} (f : α → Option β) {l₁ l₂ : List α}
    (hp : l₁.Perm l₂) :
    (seqOpt (l₁.map f) = none ∧ seqOpt (l₂.map f) = none) ∨
      ∃ b₁ b₂, seqOpt (l₁.map f) = some b₁ ∧ seqOpt (l₂.map f) = some b₂ ∧
        b₁.Perm b₂ := by
  induction hp with
  | nil => exact Or.inr ⟨[], [], rfl, rfl, List.Perm.nil⟩
  | cons a hp ih =>
    cases hfa : f a with
    | none => exact Or.inl ⟨by simp [seqOpt, hfa], by simp [seqOpt, hfa]⟩
    | some b =>
      rcases ih with ⟨h1, h2⟩ | ⟨b₁, b₂, h1, h2, hbp⟩
      · exact Or.inl ⟨by simp [seqOpt, hfa, h1], by simp [seqOpt, hfa, h2]⟩
      · exact Or.inr ⟨b :: b₁, b :: b₂, by simp [seqOpt, hfa, h1],
          by simp [seqOpt, hfa, h2], hbp.cons b⟩
  | swap a b l =>
    cases hfa : f a with
    | none =>
      cases hfb : f b with
      | none =>
        exact Or.inl ⟨by simp [seqOpt, hfa, hfb], by simp [seqOpt, hfa, hfb]⟩
      | some vb =>
        exact Or.inl ⟨by simp [seqOpt, hfa, hfb], by simp [seqOpt, hfa, hfb]⟩
    | some va =>
      cases hfb : f b with
      | none =>
        exact Or.inl ⟨by simp [seqOpt, hfa, hfb], by simp [seqOpt, hfa, hfb]⟩
      | some vb =>
        cases hseq : seqOpt (l.map f) with
        | none =>
          exact Or.inl ⟨by simp [seqOpt, hfa, hfb, hseq],
            by simp [seqOpt, hfa, hfb, hseq]⟩
        | some bs =>
          exact Or.inr ⟨vb :: va :: bs, va :: vb :: bs,
            by simp [seqOpt, hfa, hfb, hseq],
            by simp [seqOpt, hfa, hfb, hseq], List.Perm.swap va vb bs⟩
  | trans h₁ h₂ ih₁ ih₂ =>
    rcases ih₁ with ⟨ha, hb⟩ | ⟨b₁, b₂, ha, hb, hp₁⟩
    · rcases ih₂ with ⟨hc, hd⟩ | ⟨c₁, c₂, hc, hd, hp₂⟩
      · exact Or.inl ⟨ha, hd⟩
      · rw [hb] at hc
        exact Option.noConfusion hc
    · rcases ih₂ with ⟨hc, hd⟩ | ⟨c₁, c₂, hc, hd, hp₂⟩
      · rw [hb] at hc
        exact Option.noConfusion hc
      · rw [hb] at hc
        obtain rfl : b₂ = c₁ := Option.some.inj hc
        exact Or.inr ⟨b₁, c₂, ha, hd, hp₁.trans hp₂⟩

/-- C3 — `average_render` combines the per-seed images by summing each
corresponding pixel's color times the equal weight `1/len(seeds)` (this
is its definition), and the combination is order-independent: for every
seed list and every permutation of it the averaged image is the same. -/
theorem c3_average_render_perm (fsin fsqrt : ℚ → ℚ) (rend : Renderer)
    (fuel : ℕ) (seeds₁ seeds₂ : List ℚ) (hp : seeds₁.Perm seeds₂) :
    averageRender fsin fsqrt rend fuel seeds₁ =
      averageRender fsin fsqrt rend fuel seeds₂ := by
  unfold averageRender
  rcases seqOpt_map_perm (render fsin fsqrt rend fuel) hp with
    ⟨h1, h2⟩ | ⟨b₁, b₂, h1, h2, hbp⟩
  · rw [h1, h2]
    simp
  · rw [h1, h2]
    simp only [Option.map_some']
    have hlen : seeds₁.length = seeds₂.length := hp.length_eq
    rw [hlen]
    refine congrArg
      (fun d => some (Image.mk rend.camera.sensor_size_px.1
        rend.camera.sensor_size_px.2 d)) ?_
    apply List.map_congr_left
    intro i _
    exact vsum_perm (hbp.map _)

/-- Witness for C3 at a concrete seed pair and renderer. -/
theorem c3_average_render_perm_witness :
    ([0, 1] : List ℚ).Perm [1, 0] ∧
      averageRender stepFsin idq (rendC2 [objA]) 5 [0, 1] =
        averageRender stepFsin idq (rendC2 [objA]) 5 [1, 0] :=
  ⟨List.Perm.swap 1 0 [],
    c3_average_render_perm stepFsin idq (rendC2 [objA]) 5 [0, 1] [1, 0]
      (List.Perm.swap 1 0 [])⟩

/-! ## Claim C8: PPM serialization (`image.rs::to_ppm`) -/

/-- The three channels of a pixel in RGB order (`image.rs`:
`.map(|c| [c.r, c.g, c.b]).flatten()`). -/
def chans (c : Vec3) : List ℚ := [c.x, c.y, c.z]

/-- Source `f32::round`: round half away from zero. -/
def f32round (x : ℚ) : ℤ :=
  if 0 ≤ x then Int.floor (x + 1 / 2) else -Int.floor (-x + 1 / 2)

/-- Source `image.rs` `float_to_byte`:
`((f.max(0.0).min(1.0) * 255.0).round()) as u8`; the saturating `as u8`
cast is `min (max ·.toNat 0) 255` (the clamped input always lies in
`[0, 255]`, so it is the identity here). -/
def floatToByte (f : ℚ) : ℕ := min (f32round (min (max f 0) 1 * 255)).toNat 255

/-- ASCII bytes of a header string. -/
def asciiBytes (s : String) : List ℕ := s.toList.map Char.toNat

/-- The header `format!("P6 {} {} 255 ", width, height)` of
`image.rs::to_ppm`. -/
def ppmHeader (w h : ℕ) : List ℕ :=
  asciiBytes ("P6 " ++ toString w ++ " " ++ toString h ++ " 255 ")

/-- Source `image.rs::to_ppm`: the ASCII header followed by the raster bytes,
`float_to_byte` of every channel of every pixel in row-major RGB order. -/
def toPpm (img : Image) : List ℕ :=
  ppmHeader img.width img.height ++ (img.data.flatMap chans).map floatToByte

/-- The raster part carries three bytes per pixel. -/
theorem chansBytes_length (l : List Vec3) :
    ((l.flatMap chans).map floatToByte).length = 3 * l.length := by
  induction l with
  | nil => rfl
  | cons v t ih =>
    simp only [List.flatMap_cons, List.map_append, List.length_append, ih, chans]
    simp
    omega

/-- Skipping one pixel's three bytes. -/
theorem getD_cons_three (a b c : ℕ) (l : List ℕ) (n : ℕ) :
    (a :: b :: c :: l).getD (n + 3) 0 = l.getD n 0 := by
  show (a :: b :: c :: l).getD ((n + 2) + 1) 0 = _
  rw [List.getD_cons_succ]
  show (b :: c :: l).getD ((n + 1) + 1) 0 = _
  rw [List.getD_cons_succ, List.getD_cons_succ]

/-- Byte `3p + k` of the raster is `float_to_byte` of channel `k` of
pixel `p`. -/
theorem chansBytes_getD (l : List Vec3) : ∀ p, p < l.length →
    ((l.flatMap chans).map floatToByte).getD (3 * p) 0 =
        floatToByte (l.getD p ⟨0, 0, 0⟩).x ∧
      ((l.flatMap chans).map floatToByte).getD (3 * p + 1) 0 =
        floatToByte (l.getD p ⟨0, 0, 0⟩).y ∧
      ((l.flatMap chans).map floatToByte).getD (3 * p + 2) 0 =
        floatToByte (l.getD p ⟨0, 0, 0⟩).z := by
  induction l with
  | nil => intro p hp; exact absurd hp (by simp)
  | cons v t ih =>
    intro p hp
    cases p with
    | zero =>
      refine ⟨?_, ?_, ?_⟩ <;> simp [chans, List.flatMap_cons]
    | succ p =>
      have hpt : p < t.length := by
        simpa using Nat.lt_of_succ_lt_succ hp
      obtain ⟨h1, h2, h3⟩ := ih p hpt
      refine ⟨?_, ?_, ?_⟩
      · have e : 3 * (p + 1) = 3 * p + 3 := by ring
        simp only [List.flatMap_cons, chans, List.map_append, List.cons_append,
          List.nil_append, List.map_cons, e, getD_cons_three,
          List.getD_cons_succ]
        simpa using h1
      · have e : 3 * (p + 1) + 1 = (3 * p + 1) + 3 := by ring
        simp only [List.flatMap_cons, chans, List.map_append, List.cons_append,
          List.nil_append, List.map_cons, e, getD_cons_three,
          List.getD_cons_succ]
        simpa using h2
      · have e : 3 * (p + 1) + 2 = (3 * p + 2) + 3 := by ring
        simp only [List.flatMap_cons, chans, List.map_append, List.cons_append,
          List.nil_append, List.map_cons, e, getD_cons_three,
          List.getD_cons_succ]
        simpa using h3

/-- Indexing past a prefix. -/
theorem getD_append_offset (l₁ l₂ : List ℕ) (n : ℕ) :
    (l₁ ++ l₂).getD (l₁.length + n) 0 = l₂.getD n 0 := by
  induction l₁ with
  | nil => simp
  | cons a t ih =>
    have e : (a :: t).length + n = (t.length + n) + 1 := by
      simp [List.length_cons]
      omega
    rw [List.cons_append, e, List.getD_cons_succ]
    exact ih

/-- C8 — For every image whose buffer has `width*height` pixels, the
serialized raster begins with the ASCII header `"P6 {w} {h} 255 "`, has
total byte length `header_len + w*h*3`, and byte `header_len + 3p + k`
equals `round(clamp(c,0,1)*255)` of channel `k` of pixel `p`, pixels in
row-major RGB order. -/
theorem c8_to_ppm_layout (img : Image)
    (hlen : img.data.length = img.width * img.height) :
    (toPpm img).take (ppmHeader img.width img.height).length =
        ppmHeader img.width img.height ∧
      (toPpm img).length =
        (ppmHeader img.width img.height).length + img.width * img.height * 3 ∧
      ∀ p, p < img.width * img.height →
        (toPpm img).getD ((ppmHeader img.width img.height).length + 3 * p) 0 =
            floatToByte (img.data.getD p ⟨0, 0, 0⟩).x ∧
          (toPpm img).getD
              ((ppmHeader img.width img.height).length + (3 * p + 1)) 0 =
            floatToByte (img.data.getD p ⟨0, 0, 0⟩).y ∧
          (toPpm img).getD
              ((ppmHeader img.width img.height).length + (3 * p + 2)) 0 =
            floatToByte (img.data.getD p ⟨0, 0, 0⟩).z := by
  refine ⟨?_, ?_, ?_⟩
  · unfold toPpm
    exact List.take_left _ _
  · unfold toPpm
    rw [List.length_append, chansBytes_length, hlen]
    ring
  · intro p hp
    have hp' : p < img.data.length := by omega
    obtain ⟨h1, h2, h3⟩ := chansBytes_getD img.data p hp'
    exact ⟨by rw [toPpm, getD_append_offset]; exact h1,
      by rw [toPpm, getD_append_offset]; exact h2,
      by rw [toPpm, getD_append_offset]; exact h3⟩

/-- Witness for C8 at a concrete 1×1 image. -/
theorem c8_to_ppm_layout_witness :
    (Image.mk 1 1 [⟨1 / 2, 0, 2⟩]).data.length = 1 * 1 ∧
      ((toPpm ⟨1, 1, [⟨1 / 2, 0, 2⟩]⟩).take (ppmHeader 1 1).length =
          ppmHeader 1 1 ∧
        (toPpm ⟨1, 1, [⟨1 / 2, 0, 2⟩]⟩).length =
          (ppmHeader 1 1).length + 1 * 1 * 3 ∧
        ∀ p, p < 1 * 1 →
          (toPpm ⟨1, 1, [⟨1 / 2, 0, 2⟩]⟩).getD
              ((ppmHeader 1 1).length + 3 * p) 0 =
              floatToByte (([⟨1 / 2, 0, 2⟩] : List Vec3).getD p ⟨0, 0, 0⟩).x ∧
            (toPpm ⟨1, 1, [⟨1 / 2, 0, 2⟩]⟩).getD
                ((ppmHeader 1 1).length + (3 * p + 1)) 0 =
              floatToByte (([⟨1 / 2, 0, 2⟩] : List Vec3).getD p ⟨0, 0, 0⟩).y ∧
            (toPpm ⟨1, 1, [⟨1 / 2, 0, 2⟩]⟩).getD
                ((ppmHeader 1 1).length + (3 * p + 2)) 0 =
              floatToByte (([⟨1 / 2, 0, 2⟩] : List Vec3).getD p ⟨0, 0, 0⟩).z) :=
  ⟨by simp, c8_to_ppm_layout ⟨1, 1, [⟨1 / 2, 0, 2⟩]⟩ (by simp)⟩

/-! ## Claim C10: `Image::save` path check -/

/-- One filesystem effect: creating (or truncating) the file at a path
and writing bytes to it. -/
structure FsWrite where
  path : String
  bytes : List ℕ

/-- Result of `Image::save` (`image.rs`): the filesystem effects
performed, in order, and whether the call completed (`false` = the
`assert!` panicked).  `save` takes `&self`, so the image value is
passed through unchanged. -/
structure SaveResult where
  image : Image
  effects : List FsWrite
  ok : Bool

/-- Source `image.rs::save`: `assert!(filename.ends_with(".ppm"))`, then
`File::create(filename)` and `write_all(&self.to_ppm())`.  A failing
assertion panics before the file is created. -/
def save (img : Image) (filename : String) : SaveResult :=
  if ".ppm".toList.isSuffixOf filename.toList then
    ⟨img, [⟨filename, toPpm img⟩], true⟩
  else
    ⟨img, [], false⟩

/-- C10 — For every filename not ending in `".ppm"`, `save` fails via
the assertion before creating, truncating, or writing any file (its
effect list is empty), and the image value is unchanged. -/
theorem c10_save_rejects (img : Image) (filename : String)
    (h : ¬".ppm".toList <:+ filename.toList) :
    (save img filename).effects = [] ∧ (save img filename).ok = false ∧
      (save img filename).image = img := by
  have hb : ".ppm".toList.isSuffixOf filename.toList = false := by
    rw [← Bool.not_eq_true]
    intro hx
    exact h (List.isSuffixOf_iff_suffix.mp hx)
  rw [save, hb]
  exact ⟨rfl, rfl, rfl⟩

/-- Witness for C10 at the filename `"out.png"`. -/
theorem c10_save_rejects_witness :
    (¬".ppm".toList <:+ "out.png".toList) ∧
      ((save ⟨1, 1, [⟨0, 0, 0⟩]⟩ "out.png").effects = [] ∧
        (save ⟨1, 1, [⟨0, 0, 0⟩]⟩ "out.png").ok = false ∧
        (save ⟨1, 1, [⟨0, 0, 0⟩]⟩ "out.png").image = ⟨1, 1, [⟨0, 0, 0⟩]⟩) :=
  ⟨by decide, c10_save_rejects ⟨1, 1, [⟨0, 0, 0⟩]⟩ "out.png" (by decide)⟩

/-! ## Claim C5: zero-vector normalization (IEEE-aware scalar model)

For this claim the `ℚ` embedding is refined: division by zero in
`f32` produces NaN or ±Inf, values with no rational magnitude, modelled
as `Option.none`.  Square root is exact at `0` (the only input the
theorems depend on); on other nonnegative inputs its value is supplied
by the usual stand-in parameter. -/

/-- IEEE-aware addition. -/
def fAdd (a b : Option ℚ) : Option ℚ := a.bind fun x => b.map fun y => x + y

/-- IEEE-aware multiplication. -/
def fMul (a b : Option ℚ) : Option ℚ := a.bind fun x => b.map fun y => x * y

/-- IEEE-aware division: dividing by `0.0` yields NaN or ±Inf
(`none`). -/
def fDiv (a b : Option ℚ) : Option ℚ :=
  a.bind fun x => b.bind fun y => if y = 0 then none else some (x / y)

/-- IEEE-aware square root: NaN on negative inputs, exact at `0`,
stand-in `g` elsewhere. -/
def fSqrt (g : ℚ → ℚ) (a : Option ℚ) : Option ℚ :=
  a.bind fun x => if x < 0 then none else if x = 0 then some 0 else some (g x)

/-- A 3-vector of IEEE-aware scalars. -/
structure FVec3 where
  x : Option ℚ
  y : Option ℚ
  z : Option ℚ
deriving DecidableEq, Repr

/-- Source `matrix.rs` `normalized` under the IEEE-aware model:
`*self / self.length()` with `length = dot(self, self).sqrt()` — no
zero-length guard. -/
def fNormalized (g : ℚ → ℚ) (v : FVec3) : FVec3 :=
  let len := fSqrt g (fAdd (fAdd (fMul v.x v.x) (fMul v.y v.y)) (fMul v.z v.z))
  ⟨fDiv v.x len, fDiv v.y len, fDiv v.z len⟩

/-- Source `geometry.rs` `Vector3f::normalized`: the same computation guarded
by `if len == 0.0 { return Vector3f::zeros(); }`. -/
def gNormalized (g : ℚ → ℚ) (v : FVec3) : FVec3 :=
  let len := fSqrt g (fAdd (fAdd (fMul v.x v.x) (fMul v.y v.y)) (fMul v.z v.z))
  if len = some 0 then ⟨some 0, some 0, some 0⟩
  else ⟨fDiv v.x len, fDiv v.y len, fDiv v.z len⟩

/-- C5 divergence — `matrix.rs` `normalized` applied to the zero vector
computes `length = 0` and divides each component `0.0 / 0.0`, producing
NaN in every component instead of the zero vector the spec requires
(and which `geometry.rs`'s guarded `normalized` returns). -/
theorem c5_matrix_normalized_zero_nan (g : ℚ → ℚ) :
    fNormalized g ⟨some 0, some 0, some 0⟩ = ⟨none, none, none⟩ := by
  simp [fNormalized, fSqrt, fAdd, fMul, fDiv]

/-- The guarded `geometry.rs` implementation satisfies the invariant:
the zero vector normalizes to the zero vector. -/
theorem c5_geometry_normalized_zero (g : ℚ → ℚ) :
    gNormalized g ⟨some 0, some 0, some 0⟩ = ⟨some 0, some 0, some 0⟩ := by
  simp [gNormalized, fSqrt, fAdd, fMul]
